import Mathlib

/-!
Shallow embedding of the Vinted deal-checker serverless functions
(src/api/test.js) and proofs about them.

The source is JavaScript; strings are modelled as Lean `String`
(operated on through their `List Char` data), the hand-written regular
expressions of the source are compiled to explicit scanning functions
with JavaScript leftmost-match and greedy/backtracking semantics, and
thrown exceptions are modelled with `Except`.
-/

set_option maxRecDepth 20000

namespace Vinted

/-- ASCII lowercase map, modelling the case-insensitive `i` regex flag
on the ASCII patterns used by the source. -/
def lowerAscii (c : Char) : Char :=
  if 'A' ≤ c ∧ c ≤ 'Z' then Char.ofNat (c.toNat + 32) else c

/-- The character class `\s` of JavaScript regular expressions
(WhiteSpace plus LineTerminator code points). -/
def isJsWs (c : Char) : Bool :=
  let n := c.toNat
  n = 0x09 || n = 0x0a || n = 0x0b || n = 0x0c || n = 0x0d || n = 0x20 ||
  n = 0xa0 || n = 0x1680 || (0x2000 ≤ n && n ≤ 0x200a) ||
  n = 0x2028 || n = 0x2029 || n = 0x202f || n = 0x205f || n = 0x3000 ||
  n = 0xfeff

/-- The character class `\d` (ASCII digits only). -/
def isDigitChar (c : Char) : Bool :=
  '0' ≤ c && c ≤ '9'

/-- Numeric value of an ASCII digit; models `parseInt` applied to the
one-digit capture group of the rating regex. -/
def digitVal (c : Char) : Nat := c.toNat - 48

/-- Case-insensitive literal prefix test: `pat` is given lowercased. -/
def ciLitAt : List Char → List Char → Bool
  | [], _ => true
  | _ :: _, [] => false
  | p :: ps, c :: cs => (lowerAscii c = p) && ciLitAt ps cs

/-- Case-insensitive substring containment (used only to state claims
about texts that contain, or do not contain, a marker). -/
def ciContains (pat : List Char) : List Char → Bool
  | [] => ciLitAt pat []
  | c :: cs => ciLitAt pat (c :: cs) || ciContains pat cs

/-- Leading-whitespace trim, one half of `String.prototype.trim`. -/
def trimL (cs : List Char) : List Char := cs.dropWhile isJsWs

/-- Trailing-whitespace trim, the other half of `String.prototype.trim`. -/
def trimR (cs : List Char) : List Char :=
  (cs.reverse.dropWhile isJsWs).reverse

/-- Model of `String.prototype.trim`. -/
def jsTrim (cs : List Char) : List Char := trimR (trimL cs)

/-- Model of `assessment.replace(/^\s*[-:]\s*/, '')`: the anchored
pattern removes leading whitespace, one `-` or `:`, and the whitespace
after it; if no `-`/`:` is found there the string is unchanged. -/
def cleanupAssess (cs : List Char) : List Char :=
  match cs.dropWhile isJsWs with
  | [] => cs
  | c :: rest => if c = '-' ∨ c = ':' then rest.dropWhile isJsWs else cs

/-- Lowercased literal of the rating marker. -/
def ratingLit : List Char := "rating:".data

/-- Lowercased literal of the assessment marker. -/
def assessLit : List Char := "assessment:".data

/-- Length (in characters) of the full match of `/RATING:\s*\d/i`
anchored at the head of `cs`, if it matches there.  The `\s*` is
greedy; since no whitespace character is a digit, backtracking cannot
produce a different match, so the match is the marker, the maximal
whitespace run, and one digit. -/
def ratingMatchLenAt (cs : List Char) : Option Nat :=
  if ciLitAt ratingLit cs then
    let rest := cs.drop 7
    let ws := (rest.takeWhile isJsWs).length
    match rest.drop ws with
    | d :: _ => if isDigitChar d then some (7 + ws + 1) else none
    | [] => none
  else none

/-- The captured digit of `text.match(/RATING:\s*(\d)/i)`: leftmost
position at which the whole pattern matches, value of the single-digit
capture group. -/
def ratingScan : List Char → Option Nat
  | [] => none
  | c :: cs =>
    match ratingMatchLenAt (c :: cs) with
    | some n =>
      match (c :: cs).drop (n - 1) with
      | d :: _ => some (digitVal d)
      | [] => none
    | none => ratingScan cs

/-- Model of `text.replace(/RATING:\s*\d/i, '')`: without the `g` flag
only the leftmost match is removed. -/
def stripRatingOnce : List Char → List Char
  | [] => []
  | c :: cs =>
    match ratingMatchLenAt (c :: cs) with
    | some n => (c :: cs).drop n
    | none => c :: stripRatingOnce cs

/-- The capture group of `/ASSESSMENT:\s*([\s\S]+)/i` when the pattern
matches anchored at the head of `cs`: after the marker the greedy `\s*`
eats the maximal whitespace run and `([\s\S]+)` takes the (non-empty)
rest; when everything after the marker is whitespace, backtracking
leaves exactly the last character to the capture group; when nothing
follows the marker there is no match at this position. -/
def tryAssessAt (cs : List Char) : Option (List Char) :=
  if ciLitAt assessLit cs then
    let rest := cs.drop 11
    match rest with
    | [] => none
    | _ :: _ =>
      match rest.dropWhile isJsWs with
      | [] =>
        match rest.getLast? with
        | some c => some [c]
        | none => none
      | nw => some nw
  else none

/-- The capture group of `text.match(/ASSESSMENT:\s*([\s\S]+)/i)` at the
leftmost matching position. -/
def assessmentScan : List Char → Option (List Char)
  | [] => none
  | c :: cs =>
    match tryAssessAt (c :: cs) with
    | some g => some g
    | none => assessmentScan cs

/-- Result record of the response parsers: a rating and an assessment. -/
structure AnalysisResult where
  rating : Nat
  assessment : String
  deriving Repr, DecidableEq

/-- Model of `parseAIResponse` (src/api/test.js, Groq variant): extract
the single-digit rating (default 3), extract the assessment after the
`ASSESSMENT:` marker or fall back to the text with the first
`RATING: d` match removed, trim, drop one leading `-`/`:`, and clamp
the rating into `[1, 5]` with min/max. -/
def parseAIResponse (text : String) : AnalysisResult :=
  let cs := text.data
  let rating := match ratingScan cs with
    | some d => d
    | none => 3
  let assessment := match assessmentScan cs with
    | some g => cleanupAssess (jsTrim g)
    | none => cleanupAssess (jsTrim (stripRatingOnce cs))
  { rating := min 5 (max 1 rating), assessment := String.mk assessment }

/-- Model of `parseGeminiResponse` (src/api/test.js, Gemini variant);
its body is character-for-character the same algorithm as
`parseAIResponse`. -/
def parseGeminiResponse (text : String) : AnalysisResult :=
  let cs := text.data
  let rating := match ratingScan cs with
    | some d => d
    | none => 3
  let assessment := match assessmentScan cs with
    | some g => cleanupAssess (jsTrim g)
    | none => cleanupAssess (jsTrim (stripRatingOnce cs))
  { rating := min 5 (max 1 rating), assessment := String.mk assessment }

/-- JSON values, the result type of the modelled `JSON.parse`.  Numbers
are kept as exact decimals (sign, integer part, fraction digits,
decimal exponent); the claims never depend on double rounding. -/
inductive JsonValue where
  | null : JsonValue
  | bool (b : Bool) : JsonValue
  | num (neg : Bool) (intPart : Nat) (fracDigits : List Nat) (exp : Int) : JsonValue
  | str (s : String) : JsonValue
  | arr (xs : List JsonValue) : JsonValue
  | obj (fields : List (String × JsonValue)) : JsonValue

/-- JSON insignificant whitespace (space, tab, line feed, carriage
return — narrower than the regex class `\s`). -/
def isJsonWs (c : Char) : Bool :=
  c = ' ' || c = '\t' || c = '\n' || c = '\r'

/-- Skip JSON whitespace. -/
def skipJsonWs (cs : List Char) : List Char := cs.dropWhile isJsonWs

/-- Fuel-indexed worker for `parseJsonString`; every step consumes at
least one character, so fuel equal to the input length suffices. -/
def parseJsonStringA : Nat → List Char → Option (List Char × List Char)
  | 0, _ => none
  | _, [] => none
  | Nat.succ _, '"' :: rest => some ([], rest)
  | Nat.succ fuel, '\\' :: e :: rest =>
    let cont (d : Char) (r : List Char) : Option (List Char × List Char) :=
      match parseJsonStringA fuel r with
      | some (s, r2) => some (d :: s, r2)
      | none => none
    match e with
    | '"' => cont '"' rest
    | '\\' => cont '\\' rest
    | '/' => cont '/' rest
    | 'b' => cont (Char.ofNat 8) rest
    | 'f' => cont (Char.ofNat 12) rest
    | 'n' => cont '\n' rest
    | 'r' => cont '\r' rest
    | 't' => cont '\t' rest
    | 'u' =>
      match rest with
      | h1 :: h2 :: h3 :: h4 :: r2 =>
        let hexVal (c : Char) : Option Nat :=
          if isDigitChar c then some (c.toNat - 48)
          else if 'a' ≤ c ∧ c ≤ 'f' then some (c.toNat - 87)
          else if 'A' ≤ c ∧ c ≤ 'F' then some (c.toNat - 55)
          else none
        match hexVal h1, hexVal h2, hexVal h3, hexVal h4 with
        | some a, some b, some c, some d =>
          cont (Char.ofNat (((a * 16 + b) * 16 + c) * 16 + d)) r2
        | _, _, _, _ => none
      | _ => none
    | _ => none
  | Nat.succ fuel, c :: rest =>
    if c.toNat < 32 then none
    else
      match parseJsonStringA fuel rest with
      | some (s, r2) => some (c :: s, r2)
      | none => none

/-- Parse the body of a JSON string after the opening quote; returns
the decoded characters and the input after the closing quote.  Models
the escape handling of `JSON.parse`; unescaped control characters are a
syntax error. -/
def parseJsonString (cs : List Char) : Option (List Char × List Char) :=
  parseJsonStringA cs.length cs

/-- Value of a list of ASCII digit characters. -/
def digitsVal (ds : List Char) : Nat :=
  ds.foldl (fun acc d => acc * 10 + digitVal d) 0

/-- Parse a JSON number (grammar: `-? int frac? exp?`, no leading
zeros, no leading `+`); returns the value and the remaining input. -/
def parseJsonNumber (cs : List Char) : Option (JsonValue × List Char) :=
  let (neg, cs1) := match cs with
    | '-' :: r => (true, r)
    | _ => (false, cs)
  let intOpt : Option (Nat × List Char) := match cs1 with
    | '0' :: r =>
      match r with
      | d :: _ => if isDigitChar d then none else some (0, r)
      | [] => some (0, [])
    | c :: _ =>
      if isDigitChar c then
        let ds := cs1.takeWhile isDigitChar
        some (digitsVal ds, cs1.drop ds.length)
      else none
    | [] => none
  match intOpt with
  | none => none
  | some (ip, r1) =>
    let fracOpt : Option (List Nat × List Char) := match r1 with
      | '.' :: r2 =>
        let ds := r2.takeWhile isDigitChar
        if ds = [] then none else some (ds.map digitVal, r2.drop ds.length)
      | _ => some ([], r1)
    match fracOpt with
    | none => none
    | some (fd, r2) =>
      let expOpt : Option (Int × List Char) := match r2 with
        | e :: r3 =>
          if e = 'e' ∨ e = 'E' then
            let (esign, r4) : Int × List Char := match r3 with
              | '+' :: r5 => (1, r5)
              | '-' :: r5 => (-1, r5)
              | _ => (1, r3)
            let ds := r4.takeWhile isDigitChar
            if ds = [] then none
            else some (esign * (digitsVal ds : Int), r4.drop ds.length)
          else some (0, r2)
        | [] => some (0, r2)
      match expOpt with
      | none => none
      | some (ex, r3) => some (JsonValue.num neg ip fd ex, r3)

mutual

/-- Fuel-indexed recursive-descent model of `JSON.parse` on one value;
returns the value and the unconsumed input. -/
def parseJsonVal : Nat → List Char → Option (JsonValue × List Char)
  | 0, _ => none
  | Nat.succ fuel, cs =>
    match skipJsonWs cs with
    | [] => none
    | c :: rest =>
      if c = 'n' then
        if "ull".data.isPrefixOf rest then some (JsonValue.null, rest.drop 3) else none
      else if c = 't' then
        if "rue".data.isPrefixOf rest then some (JsonValue.bool true, rest.drop 3) else none
      else if c = 'f' then
        if "alse".data.isPrefixOf rest then some (JsonValue.bool false, rest.drop 4) else none
      else if c = '"' then
        match parseJsonString rest with
        | some (s, r2) => some (JsonValue.str (String.mk s), r2)
        | none => none
      else if c = '[' then
        match skipJsonWs rest with
        | ']' :: r2 => some (JsonValue.arr [], r2)
        | r2 => parseJsonArrElems fuel r2 []
      else if c = Char.ofNat 0x7b then
        match skipJsonWs rest with
        | r2 =>
          match r2 with
          | d :: r3 =>
            if d = Char.ofNat 0x7d then some (JsonValue.obj [], r3)
            else parseJsonObjFields fuel r2 []
          | [] => none
      else if c = '-' ∨ isDigitChar c then
        parseJsonNumber (c :: rest)
      else none

/-- Parse the element list of a JSON array after the opening bracket
(first element pending), accumulating in reverse. -/
def parseJsonArrElems : Nat → List Char → List JsonValue → Option (JsonValue × List Char)
  | 0, _, _ => none
  | Nat.succ fuel, cs, acc =>
    match parseJsonVal fuel cs with
    | none => none
    | some (v, r1) =>
      match skipJsonWs r1 with
      | ',' :: r2 => parseJsonArrElems fuel r2 (v :: acc)
      | ']' :: r2 => some (JsonValue.arr (v :: acc).reverse, r2)
      | _ => none

/-- Parse the member list of a JSON object after the opening brace
(first member pending), accumulating in reverse. -/
def parseJsonObjFields : Nat → List Char → List (String × JsonValue) →
    Option (JsonValue × List Char)
  | 0, _, _ => none
  | Nat.succ fuel, cs, acc =>
    match skipJsonWs cs with
    | '"' :: r1 =>
      match parseJsonString r1 with
      | none => none
      | some (k, r2) =>
        match skipJsonWs r2 with
        | ':' :: r3 =>
          match parseJsonVal fuel r3 with
          | none => none
          | some (v, r4) =>
            match skipJsonWs r4 with
            | ',' :: r5 => parseJsonObjFields fuel r5 ((String.mk k, v) :: acc)
            | d :: r5 =>
              if d = Char.ofNat 0x7d then
                some (JsonValue.obj ((String.mk k, v) :: acc).reverse, r5)
              else none
            | [] => none
        | _ => none
    | _ => none

end

/-- Model of `JSON.parse(s)`: parse one value and require only
whitespace after it; `none` models a thrown `SyntaxError` (which the
source catches, leaving the hint `null`). -/
def jsonParse (s : String) : Option JsonValue :=
  match parseJsonVal (2 * s.length + 16) s.data with
  | some (v, rest) => if skipJsonWs rest = [] then some v else none
  | none => none

/-- Property access `v.k` of JavaScript restricted to the shapes the
source reads: an object yields its member (last duplicate wins, as in
`JSON.parse`), everything else yields `undefined` (`none`). -/
def jsGet (o : Option JsonValue) (k : String) : Option JsonValue :=
  match o with
  | some (JsonValue.obj fields) =>
    (fields.reverse.find? (fun f => f.1 = k)).map (fun f => f.2)
  | _ => none

/-- JavaScript truthiness of a JSON value. -/
def truthyV : JsonValue → Bool
  | JsonValue.null => false
  | JsonValue.bool b => b
  | JsonValue.num _ i fd _ => !(i = 0 && fd.all (· = 0))
  | JsonValue.str s => s ≠ ""
  | JsonValue.arr _ => true
  | JsonValue.obj _ => true

/-- Truthiness of a possibly-`undefined` value. -/
def truthy (o : Option JsonValue) : Bool :=
  match o with
  | some v => truthyV v
  | none => false

/-- Strict equality of a JSON value with the string literal `EUR`
(`currency === 'EUR'` in the source). -/
def isStrEUR : JsonValue → Bool
  | JsonValue.str s => s = "EUR"
  | _ => false

/-- Decimal rendering of a modelled JSON number, used by template
interpolation.  The exponent is folded into an exact decimal and
trailing fraction zeros are stripped; this is a decimal model of the
double-to-string conversion of JavaScript and agrees with it on short
decimals (the only numbers the claims exercise). -/
def jsNumToString (neg : Bool) (intPart : Nat) (fracDigits : List Nat) (exp : Int) : String :=
  let m0 := fracDigits.foldl (fun acc d => acc * 10 + d) intPart
  let k0 := fracDigits.length
  let (m, k) : Nat × Nat :=
    match exp with
    | Int.ofNat e => (m0 * 10 ^ e, k0)
    | Int.negSucc e => (m0, k0 + (e + 1))
  let rec strip : Nat → Nat → Nat → Nat × Nat
    | mm, kk, 0 => (mm, kk)
    | mm, kk, Nat.succ f =>
      if kk = 0 then (mm, kk)
      else if mm % 10 = 0 then strip (mm / 10) (kk - 1) f
      else (mm, kk)
  let (m1, k1) := strip m k k
  let sign := if neg ∧ m1 ≠ 0 then "-" else ""
  if k1 = 0 then sign ++ Nat.repr m1
  else
    let ip := m1 / 10 ^ k1
    let fp := m1 % 10 ^ k1
    let fpStr := Nat.repr fp
    let pad := String.mk (List.replicate (k1 - fpStr.length) '0')
    sign ++ Nat.repr ip ++ "." ++ pad ++ fpStr

mutual

/-- String coercion of a JSON value under template interpolation. -/
def jsToString : JsonValue → String
  | JsonValue.null => "null"
  | JsonValue.bool b => if b then "true" else "false"
  | JsonValue.num neg i fd e => jsNumToString neg i fd e
  | JsonValue.str s => s
  | JsonValue.arr xs => jsArrJoin xs
  | JsonValue.obj _ => "[object Object]"

/-- Array-to-string coercion: elements joined by commas, with `null`
elements rendered empty, as in `Array.prototype.toString`. -/
def jsArrJoin : List JsonValue → String
  | [] => ""
  | [JsonValue.null] => ""
  | [x] => jsToString x
  | JsonValue.null :: xs => "," ++ jsArrJoin xs
  | x :: xs => jsToString x ++ "," ++ jsArrJoin xs

end

/-- Literal opening of the `og:title` meta-tag pattern. -/
def ogTitleLit : List Char := "<meta property=\"og:title\" content=\"".data

/-- Literal opening of the `og:description` meta-tag pattern. -/
def ogDescLit : List Char := "<meta property=\"og:description\" content=\"".data

/-- Try the tail of a meta-tag pattern at the head of `cs`: after the
literal opening, `([^\"]+)` captures a non-empty run of non-quote
characters and the closing quote must follow. -/
def tryMetaAt (lit cs : List Char) : Option (List Char) :=
  if lit.isPrefixOf cs then
    let rest := cs.drop lit.length
    let grp := rest.takeWhile (fun c => c ≠ '"')
    match rest.drop grp.length with
    | '"' :: _ => if grp = [] then none else some grp
    | _ => none
  else none

/-- Leftmost match of a meta-tag pattern over the whole input. -/
def metaScan (lit : List Char) : List Char → Option (List Char)
  | [] => none
  | c :: cs =>
    match tryMetaAt lit (c :: cs) with
    | some g => some g
    | none => metaScan lit cs

/-- Try `/"brand":\s*\x7b\s*"name":\s*"([^"]+)"/` anchored at the head
of `cs`; the whitespace runs are maximal (no other token of the
pattern is whitespace, so backtracking never produces a different
match). -/
def tryBrandAt (cs : List Char) : Option (List Char) :=
  if "\"brand\":".data.isPrefixOf cs then
    let r1 := (cs.drop 8).dropWhile isJsWs
    match r1 with
    | b :: r2 =>
      if b = Char.ofNat 0x7b then
        let r3 := r2.dropWhile isJsWs
        if "\"name\":".data.isPrefixOf r3 then
          let r4 := (r3.drop 7).dropWhile isJsWs
          match r4 with
          | '"' :: r5 =>
            let grp := r5.takeWhile (fun c => c ≠ '"')
            match r5.drop grp.length with
            | '"' :: _ => if grp = [] then none else some grp
            | _ => none
          | _ => none
        else none
      else none
    | [] => none
  else none

/-- Leftmost match of the brand pattern. -/
def brandScan : List Char → Option (List Char)
  | [] => none
  | c :: cs =>
    match tryBrandAt (c :: cs) with
    | some g => some g
    | none => brandScan cs

/-- Try `/"price":\s*"?(\d+(?:\.\d+)?)"?/` anchored at the head of
`cs`: maximal whitespace, an optional quote, a non-empty digit run,
optionally a dot followed by a non-empty digit run; the trailing
optional quote constrains nothing. -/
def tryPriceAt (cs : List Char) : Option (List Char) :=
  if "\"price\":".data.isPrefixOf cs then
    let r1 := (cs.drop 8).dropWhile isJsWs
    let r2 := match r1 with
      | '"' :: r => r
      | _ => r1
    let ds := r2.takeWhile isDigitChar
    if ds = [] then none
    else
      match r2.drop ds.length with
      | '.' :: r3 =>
        let fs := r3.takeWhile isDigitChar
        if fs = [] then some ds else some (ds ++ '.' :: fs)
      | _ => some ds
  else none

/-- Leftmost match of the price pattern. -/
def priceScan : List Char → Option (List Char)
  | [] => none
  | c :: cs =>
    match tryPriceAt (c :: cs) with
    | some g => some g
    | none => priceScan cs

/-- Opening literal of the JSON-LD script-tag pattern. -/
def scriptOpenLit : List Char := "<script type=\"application/ld+json\">".data

/-- Closing literal of the JSON-LD script-tag pattern. -/
def scriptCloseLit : List Char := "</script>".data

/-- Characters before the first occurrence of `close` in `cs`, or
`none` when `close` never occurs — the lazy `([\s\S]*?)` capture of the
script-tag pattern. -/
def charsBefore (close : List Char) : List Char → Option (List Char)
  | [] => if close.isPrefixOf ([] : List Char) then some [] else none
  | c :: cs =>
    if close.isPrefixOf (c :: cs) then some []
    else (charsBefore close cs).map (fun l => c :: l)

/-- Try the script-tag pattern anchored at the head of `cs`. -/
def tryScriptAt (cs : List Char) : Option (List Char) :=
  if scriptOpenLit.isPrefixOf cs then
    charsBefore scriptCloseLit (cs.drop scriptOpenLit.length)
  else none

/-- Leftmost match of
`/<script type="application\/ld\+json">([\s\S]*?)<\/script>/`. -/
def scriptTagScan : List Char → Option (List Char)
  | [] => none
  | c :: cs =>
    match tryScriptAt (c :: cs) with
    | some g => some g
    | none => scriptTagScan cs

/-- Fixed CDN prefix of the image-URL pattern. -/
def imagePrefixLit : List Char := "https://images1.vinted.net/t/".data

/-- Character class `[^"'\s]` of the image pattern. -/
def isImageBodyChar (c : Char) : Bool :=
  !(c = '"' || c = Char.ofNat 39 || isJsWs c)

/-- Try the image pattern anchored at the head of `cs`; returns the
matched characters and the match length. -/
def tryImageAt (cs : List Char) : Option (List Char × Nat) :=
  if imagePrefixLit.isPrefixOf cs then
    let body := (cs.drop imagePrefixLit.length).takeWhile isImageBodyChar
    if body = [] then none
    else some (imagePrefixLit ++ body, imagePrefixLit.length + body.length)
  else none

/-- Fuel-indexed global scan of the image pattern
(`html.match(/.../g)`): collect non-overlapping leftmost matches,
resuming after each match.  Every step consumes at least one
character, so fuel equal to the input length suffices. -/
def imageScanA : Nat → List Char → List (List Char)
  | 0, _ => []
  | _, [] => []
  | Nat.succ fuel, c :: cs =>
    match tryImageAt (c :: cs) with
    | some (m, len) => m :: imageScanA fuel ((c :: cs).drop len)
    | none => imageScanA fuel cs

/-- All matches of the image pattern, in order. -/
def imageMatches (cs : List Char) : List (List Char) :=
  imageScanA cs.length cs

/-- First-seen-order deduplication worker; `seen` collects emitted
elements.  Models iteration order of a JavaScript `Set`. -/
def dedupAux {α : Type} [DecidableEq α] (seen : List α) : List α → List α
  | [] => []
  | x :: xs =>
    if x ∈ seen then dedupAux seen xs else x :: dedupAux (x :: seen) xs

/-- Model of `[...new Set(l)]`: duplicates removed, first occurrence
order preserved. -/
def jsSetDedup {α : Type} [DecidableEq α] (l : List α) : List α :=
  dedupAux [] l

/-- Model of `extractImages`: all matches of the CDN image pattern,
deduplicated via a Set and truncated to the first five; the `null`
guard of `html.match` with no matches yields the empty list. -/
def extractImages (html : String) : List String :=
  let ms := (imageMatches html.data).map (fun l => String.mk l)
  match ms with
  | [] => []
  | _ :: _ => (jsSetDedup ms).take 5

/-- Model of `extractTitle`: the structured-data `name` when truthy,
else the `og:title` capture, else absent. -/
def extractTitle (html : List Char) (jsonLd : Option JsonValue) : Option JsonValue :=
  match jsGet jsonLd "name" with
  | some v =>
    if truthyV v then some v
    else (metaScan ogTitleLit html).map (fun g => JsonValue.str (String.mk g))
  | none => (metaScan ogTitleLit html).map (fun g => JsonValue.str (String.mk g))

/-- Model of `extractBrand`: the structured-data `brand.name` when
truthy, else the brand-pattern capture, else absent. -/
def extractBrand (html : List Char) (jsonLd : Option JsonValue) : Option JsonValue :=
  match jsGet (jsGet jsonLd "brand") "name" with
  | some v =>
    if truthyV v then some v
    else (brandScan html).map (fun g => JsonValue.str (String.mk g))
  | none => (brandScan html).map (fun g => JsonValue.str (String.mk g))

/-- Model of `extractPrice`: when `offers.price` is truthy, prefix it
with the currency (code `EUR` mapped to the euro sign, any other
truthy `priceCurrency` used literally, falsy defaulted to the euro
sign); else the price-pattern capture prefixed with the euro sign;
else absent. -/
def extractPrice (html : List Char) (jsonLd : Option JsonValue) : Option String :=
  let offers := jsGet jsonLd "offers"
  match jsGet offers "price" with
  | some pv =>
    if truthyV pv then
      let currency : JsonValue :=
        match jsGet offers "priceCurrency" with
        | some cv => if truthyV cv then cv else JsonValue.str "€"
        | none => JsonValue.str "€"
      let curStr := if isStrEUR currency then "€" else jsToString currency
      some (curStr ++ jsToString pv)
    else (priceScan html).map (fun g => "€" ++ String.mk g)
  | none => (priceScan html).map (fun g => "€" ++ String.mk g)

/-- Model of `extractDescription`: the structured-data `description`
when truthy, else the `og:description` capture, else absent. -/
def extractDescription (html : List Char) (jsonLd : Option JsonValue) : Option JsonValue :=
  match jsGet jsonLd "description" with
  | some v =>
    if truthyV v then some v
    else (metaScan ogDescLit html).map (fun g => JsonValue.str (String.mk g))
  | none => (metaScan ogDescLit html).map (fun g => JsonValue.str (String.mk g))

/-- Errors thrown by the modelled JavaScript: `Error(msg)` thrown
explicitly by the source, or the `TypeError` raised when a method is
called on a value that lacks it. -/
inductive JsError where
  | error (msg : String) : JsError
  | typeError : JsError
  deriving Repr, DecidableEq

/-- Replace the first occurrence of `pat` (non-empty literal) by `rep`,
as `String.prototype.replace` with a string pattern does. -/
def replaceFirstL (pat rep : List Char) : List Char → List Char
  | [] => []
  | c :: cs =>
    if pat.isPrefixOf (c :: cs) then rep ++ (c :: cs).drop pat.length
    else c :: replaceFirstL pat rep cs

/-- Model of `extractCondition`: when `itemCondition` is truthy the
source calls `.replace` on it, which strips one occurrence of the
schema.org prefix for a string but raises a `TypeError` for any other
truthy value; a falsy or missing `itemCondition` yields absent. -/
def extractCondition (_html : List Char) (jsonLd : Option JsonValue) :
    Except JsError (Option String) :=
  match jsGet jsonLd "itemCondition" with
  | some v =>
    if truthyV v then
      match v with
      | JsonValue.str s =>
        Except.ok (some (String.mk
          (replaceFirstL "https://schema.org/".data [] s.data)))
      | _ => Except.error JsError.typeError
    else Except.ok none
  | none => Except.ok none

/-- The extracted listing record built by `fetchVintedListing`. -/
structure ListingData where
  title : Option JsonValue
  brand : Option JsonValue
  price : Option String
  description : Option JsonValue
  condition : Option String
  images : List String
  url : String

/-- Outcome of the awaited `fetch` of the listing page: the HTTP
success flag and the body text. -/
structure HttpResp where
  ok : Bool
  body : String

/-- The structured-data hint of a page: the capture of the script-tag
pattern run through `JSON.parse`, with a parse failure caught and
treated as no hint. -/
def jsonLdOf (html : String) : Option JsonValue :=
  match scriptTagScan html.data with
  | none => none
  | some content => jsonParse (String.mk content)

/-- Truthiness of the extracted price (a string or absent). -/
def priceTruthy (p : Option String) : Bool :=
  match p with
  | some s => s ≠ ""
  | none => false

/-- Model of `fetchVintedListing` after the network call: a non-success
response throws the fetch error; otherwise the fields are extracted
(the condition extractor is the only one that can throw, so its effect
is sequenced first, faithful to the evaluation order of the object
literal) and the minimum-data gate throws the extraction error when
both title and price are falsy. -/
def fetchVintedListing (resp : HttpResp) (url : String) : Except JsError ListingData :=
  if resp.ok = false then Except.error (JsError.error "Failed to fetch Vinted listing")
  else
    let html := resp.body
    let j := jsonLdOf html
    match extractCondition html.data j with
    | Except.error e => Except.error e
    | Except.ok cond =>
      let data : ListingData :=
        { title := extractTitle html.data j
          brand := extractBrand html.data j
          price := extractPrice html.data j
          description := extractDescription html.data j
          condition := cond
          images := extractImages html
          url := url }
      if !(truthy data.title) && !(priceTruthy data.price) then
        Except.error (JsError.error
          "Could not extract listing data. The listing may be unavailable.")
      else Except.ok data

/-- Outbound network calls performed by the Groq request handler, in
order; used to state when a call happens relative to an error. -/
inductive NetEvent where
  | listingFetch : NetEvent
  | modelCall : NetEvent
  deriving Repr, DecidableEq

/-- Outcome of the awaited Groq completion call: HTTP success flag and
status, the error body text, and the extracted
`choices[0].message.content` (absent when missing). -/
structure ModelResp where
  ok : Bool
  status : Nat
  errorText : String
  content : Option String

/-- Truthiness of an optional string value (`!x` in the source is true
for a missing or empty string; used for both `GROQ_API_KEY` and the
`url` field of the request body). -/
def strOptTruthy (k : Option String) : Bool :=
  match k with
  | some s => s ≠ ""
  | none => false

/-- Message text of a thrown error as read by `error.message`.  The
exact wording of the `TypeError` raised inside `extractCondition` is
produced by the JavaScript runtime; this constant stands for it (it is
some non-empty runtime-dependent text). -/
def typeErrorMessage : String := "jsonLd.itemCondition.replace is not a function"

/-- Model of `error.message || 'Failed to analyze listing'` in the
catch block of the handler. -/
def errMessage (e : JsError) : String :=
  match e with
  | JsError.error m => if m = "" then "Failed to analyze listing" else m
  | JsError.typeError => typeErrorMessage

/-- Model of `analyzeWithGroq`, paired with the network calls it
performs: a falsy `GROQ_API_KEY` throws the configuration error before
the completion call; a non-success completion response throws with the
status and a 200-character prefix of the error body; missing or empty
content throws; otherwise the reply text is parsed. -/
def analyzeWithGroq (key : Option String) (m : ModelResp) :
    List NetEvent × Except JsError AnalysisResult :=
  if strOptTruthy key = false then
    ([], Except.error (JsError.error "GROQ_API_KEY environment variable not set"))
  else if m.ok = false then
    ([NetEvent.modelCall], Except.error (JsError.error
      ("AI analysis failed: " ++ Nat.repr m.status ++ " - " ++ m.errorText.take 200)))
  else
    match m.content with
    | some t =>
      if t = "" then
        ([NetEvent.modelCall], Except.error (JsError.error "No analysis generated"))
      else ([NetEvent.modelCall], Except.ok (parseAIResponse t))
    | none =>
      ([NetEvent.modelCall], Except.error (JsError.error "No analysis generated"))

/-- JSON body of a handler response: either the success payload or the
error object. -/
inductive HandlerBody where
  | success (rating : Nat) (assessment : String) (title brand : Option JsonValue)
      (price : Option String) (image : Option String) : HandlerBody
  | failure (error : String) : HandlerBody

/-- A serialized handler response: HTTP status plus JSON body. -/
structure HandlerOut where
  status : Nat
  body : HandlerBody

/-- Model of the Groq request handler
(`export default async function handler` of the Groq variant), paired
with the ordered list of outbound network calls it performs.  The
awaited listing-page response and the awaited completion response are
passed in as the environment of the two `fetch` calls. -/
def handler (method : String) (urlField : Option String) (key : Option String)
    (lresp : HttpResp) (m : ModelResp) : List NetEvent × HandlerOut :=
  if method ≠ "POST" then
    ([], ⟨405, HandlerBody.failure "Method not allowed"⟩)
  else if strOptTruthy urlField = false then
    ([], ⟨400, HandlerBody.failure "URL is required"⟩)
  else
    let url := match urlField with
      | some u => u
      | none => ""
    match fetchVintedListing lresp url with
    | Except.error e =>
      ([NetEvent.listingFetch], ⟨500, HandlerBody.failure (errMessage e)⟩)
    | Except.ok d =>
      let (evs, r) := analyzeWithGroq key m
      (NetEvent.listingFetch :: evs,
        match r with
        | Except.error e => ⟨500, HandlerBody.failure (errMessage e)⟩
        | Except.ok a =>
          ⟨200, HandlerBody.success a.rating a.assessment d.title d.brand d.price
            d.images.head?⟩)

/-- Modelled from the claim wording of C3 (not from the source): remove
every occurrence of a case-insensitive `RATING: <digit>` substring,
resuming after each removed match; fuel-indexed, every step consumes at
least one character. -/
def specStripAllRatingA : Nat → List Char → List Char
  | 0, cs => cs
  | _, [] => []
  | Nat.succ fuel, c :: cs =>
    match ratingMatchLenAt (c :: cs) with
    | some n => specStripAllRatingA fuel ((c :: cs).drop n)
    | none => c :: specStripAllRatingA fuel cs

/-- Modelled from the claim wording of C3: strip all rating matches. -/
def specStripAllRating (cs : List Char) : List Char :=
  specStripAllRatingA cs.length cs

/-- Modelled from the claim wording of C4 (not from the source): the
text after the first case-insensitive occurrence of the
`ASSESSMENT:` marker, to end of text (with no requirement that any
character follow the marker). -/
def specAfterMarker : List Char → Option (List Char)
  | [] => none
  | c :: cs =>
    if ciLitAt assessLit (c :: cs) then some ((c :: cs).drop 11)
    else specAfterMarker cs

/-- Fuel-indexed worker for `specFirstSeen`; each step consumes at
least one element, so fuel equal to the input length suffices. -/
def specFirstSeenA {α : Type} [DecidableEq α] : Nat → List α → List α
  | 0, l => l
  | _, [] => []
  | Nat.succ fuel, x :: xs => x :: specFirstSeenA fuel (xs.filter (fun y => y ≠ x))

/-- Modelled from the claim wording of C9 (not from the source): keep
each element of the list at its first occurrence and drop every later
duplicate, preserving first-seen order. -/
def specFirstSeen {α : Type} [DecidableEq α] (l : List α) : List α :=
  specFirstSeenA l.length l

section TrimLemmas

/-- The head of a non-empty prefix agrees with the head of the list. -/
theorem head_eq_of_listPre {α : Type} {u v : List α} (h : u <+: v) (hu : u ≠ []) :
    u.head? = v.head? := by
  obtain ⟨t, rfl⟩ := h
  cases u with
  | nil => exact absurd rfl hu
  | cons a u => rfl

/-- The last element of a non-empty suffix agrees with the last element
of the list. -/
theorem getLast_eq_of_listSuf {α : Type} {u v : List α} (h : u <:+ v) (hu : u ≠ []) :
    u.getLast? = v.getLast? := by
  obtain ⟨t, rfl⟩ := h
  exact (List.getLast?_append_of_ne_nil t hu).symm

/-- Whatever survives at the head of a `dropWhile` fails the predicate. -/
theorem head?_dropWhile_false {p : Char → Bool} :
    ∀ {l : List Char} {c : Char}, (l.dropWhile p).head? = some c → p c = false := by
  intro l
  induction l with
  | nil => intro c hc; exact Option.noConfusion hc
  | cons a l ih =>
    intro c hc
    by_cases hp : p a
    · rw [List.dropWhile_cons_of_pos hp] at hc
      exact ih hc
    · rw [List.dropWhile_cons_of_neg hp] at hc
      cases hc
      exact Bool.of_not_eq_true hp

/-- A list whose head fails the predicate is untouched by `dropWhile`. -/
theorem dropWhile_eq_self_of_head {p : Char → Bool} {l : List Char}
    (h : ∀ c, l.head? = some c → p c = false) : l.dropWhile p = l := by
  cases l with
  | nil => rfl
  | cons a l =>
    have := h a rfl
    simp [List.dropWhile_cons, this]

/-- A list of predicate-satisfying characters drops to nothing. -/
theorem dropWhile_eq_nil_of_all {p : Char → Bool} {l : List Char}
    (h : ∀ c ∈ l, p c) : l.dropWhile p = [] := by
  induction l with
  | nil => rfl
  | cons a l ih =>
    rw [List.dropWhile_cons_of_pos (h a (List.mem_cons_self a l))]
    exact ih fun c hc => h c (List.mem_cons_of_mem a hc)

/-- The modelled trailing trim is the `rdropWhile` of Mathlib. -/
theorem trimR_eq_rdropWhile (l : List Char) : trimR l = List.rdropWhile isJsWs l := rfl

/-- Whatever survives at the tail of a `trimR` is not whitespace. -/
theorem getLast?_trimR_false {l : List Char} {c : Char}
    (h : (trimR l).getLast? = some c) : isJsWs c = false := by
  rw [trimR, List.getLast?_reverse] at h
  exact head?_dropWhile_false h

/-- A list whose last element is not whitespace is untouched by `trimR`. -/
theorem trimR_eq_self_of_getLast {l : List Char}
    (h : ∀ c, l.getLast? = some c → isJsWs c = false) : trimR l = l := by
  rw [trimR]
  have hdrop : l.reverse.dropWhile isJsWs = l.reverse := by
    apply dropWhile_eq_self_of_head
    intro c hc
    rw [List.head?_reverse] at hc
    exact h c hc
  rw [hdrop, List.reverse_reverse]

/-- Leading trim is idempotent after a trim. -/
theorem trimL_jsTrim (l : List Char) : trimL (jsTrim l) = jsTrim l := by
  rw [trimL]
  apply dropWhile_eq_self_of_head
  intro c hc
  have hne : jsTrim l ≠ [] := by
    intro hnil
    rw [hnil] at hc
    exact Option.noConfusion hc
  have hpre : jsTrim l <+: trimL l := by
    rw [jsTrim, trimR_eq_rdropWhile]
    exact List.rdropWhile_prefix _ _
  have hh : (jsTrim l).head? = (trimL l).head? := head_eq_of_listPre hpre hne
  rw [hh] at hc
  exact head?_dropWhile_false hc

/-- Trailing trim is idempotent after a trim. -/
theorem trimR_jsTrim (l : List Char) : trimR (jsTrim l) = jsTrim l := by
  rw [jsTrim, trimR_eq_rdropWhile, trimR_eq_rdropWhile]
  exact List.rdropWhile_idempotent _ _

/-- A trimmed string trims to itself. -/
theorem jsTrim_jsTrim (l : List Char) : jsTrim (jsTrim l) = jsTrim l := by
  show trimR (trimL (jsTrim l)) = jsTrim l
  rw [trimL_jsTrim, jsTrim, trimR_eq_rdropWhile, trimR_eq_rdropWhile]
  exact List.rdropWhile_idempotent _ _

/-- Trimming ignores a leading whitespace strip. -/
theorem jsTrim_trimL (l : List Char) : jsTrim (trimL l) = jsTrim l := by
  rw [jsTrim, trimL, trimL, List.dropWhile_idempotent]
  rfl

/-- A list of whitespace characters trims to nothing. -/
theorem jsTrim_of_all_ws {l : List Char} (h : ∀ c ∈ l, isJsWs c) : jsTrim l = [] := by
  have hnil : trimL l = [] := dropWhile_eq_nil_of_all h
  rw [jsTrim, hnil]
  rfl

/-- The last element of a trimmed non-empty string is not whitespace. -/
theorem getLast?_of_trimmed {l : List Char} (h : jsTrim l = l) {c : Char}
    (hc : l.getLast? = some c) : isJsWs c = false := by
  apply getLast?_trimR_false (l := trimL l)
  rw [show trimR (trimL l) = jsTrim l from rfl, h]
  exact hc

/-- Cleanup of a trimmed string is trimmed: the anchored replace leaves
either the string itself or a suffix of it that starts after a maximal
whitespace run. -/
theorem jsTrim_cleanupAssess {l : List Char} (h : jsTrim l = l) :
    jsTrim (cleanupAssess l) = cleanupAssess l := by
  have hL : l.dropWhile isJsWs = l := by
    have := trimL_jsTrim l
    rw [h] at this
    exact this
  rw [cleanupAssess, hL]
  cases hl : l with
  | nil => rfl
  | cons c rest =>
    by_cases hc : c = '-' ∨ c = ':'
    · simp only [hc, if_true]
      by_cases hne : rest.dropWhile isJsWs = []
      · rw [hne]; rfl
      · have hLp : trimL (rest.dropWhile isJsWs) = rest.dropWhile isJsWs := by
          rw [trimL, List.dropWhile_idempotent]
        have hsfx : rest.dropWhile isJsWs <:+ l := by
          rw [hl]
          exact (List.dropWhile_suffix _).trans (List.suffix_cons _ _)
        have hlast : (rest.dropWhile isJsWs).getLast? = l.getLast? :=
          getLast_eq_of_listSuf hsfx hne
        have hRp : trimR (rest.dropWhile isJsWs) = rest.dropWhile isJsWs := by
          apply trimR_eq_self_of_getLast
          intro x hx
          rw [hlast] at hx
          exact getLast?_of_trimmed h hx
        rw [jsTrim, hLp, hRp]
    · simp only [hc, if_false]
      rw [← hl]
      exact h

end TrimLemmas

section ScanLemmas

/-- The rating pattern never matches at the end of the input. -/
theorem ratingMatchLenAt_nil : ratingMatchLenAt [] = none := rfl

/-- When no position of the text matches the rating pattern, the
single-occurrence replace is the identity. -/
theorem stripRatingOnce_of_no_match :
    ∀ {cs : List Char}, (∀ i, ratingMatchLenAt (cs.drop i) = none) →
      stripRatingOnce cs = cs := by
  intro cs
  induction cs with
  | nil => intro _; rfl
  | cons c cs ih =>
    intro h
    have h0 := h 0
    rw [List.drop_zero] at h0
    simp only [stripRatingOnce, h0]
    refine congrArg (c :: ·) (ih ?_)
    intro i
    have := h (i + 1)
    rwa [List.drop_succ_cons] at this

/-- When the leftmost rating match sits at position `i` with length
`n`, the single-occurrence replace removes exactly that segment. -/
theorem stripRatingOnce_of_first :
    ∀ {cs : List Char} {i n : Nat},
      (∀ j, j < i → ratingMatchLenAt (cs.drop j) = none) →
      ratingMatchLenAt (cs.drop i) = some n →
      stripRatingOnce cs = cs.take i ++ cs.drop (i + n) := by
  intro cs
  induction cs with
  | nil =>
    intro i n _ hi
    rw [List.drop_nil, ratingMatchLenAt_nil] at hi
    exact Option.noConfusion hi
  | cons c cs ih =>
    intro i n hlt hi
    cases i with
    | zero =>
      rw [List.drop_zero] at hi
      simp only [stripRatingOnce, hi, List.take_zero, List.nil_append, Nat.zero_add]
    | succ i =>
      have h0 := hlt 0 (Nat.succ_pos i)
      rw [List.drop_zero] at h0
      simp only [stripRatingOnce, h0]
      rw [List.drop_succ_cons] at hi
      have hlt2 : ∀ j, j < i → ratingMatchLenAt (cs.drop j) = none := by
        intro j hj
        have := hlt (j + 1) (Nat.succ_lt_succ hj)
        rwa [List.drop_succ_cons] at this
      rw [ih hlt2 hi, List.take_succ_cons,
        show i + 1 + n = (i + n) + 1 from by omega, List.drop_succ_cons]
      rfl

/-- Converse direction of `dropWhile_eq_nil_of_all`. -/
theorem all_ws_of_dropWhile_eq_nil {l : List Char}
    (h : l.dropWhile isJsWs = []) : ∀ c ∈ l, isJsWs c :=
  (List.dropWhile_eq_nil_iff).mp h

/-- When the first occurrence of the assessment marker is followed by
at least one character, the leftmost regex match fires at that first
occurrence and its capture group trims to the same text as the raw
suffix after the marker. -/
theorem assessmentScan_of_specAfter :
    ∀ {cs g : List Char}, specAfterMarker cs = some g → g ≠ [] →
      ∃ g2, assessmentScan cs = some g2 ∧ jsTrim g2 = jsTrim g := by
  intro cs
  induction cs with
  | nil => intro g hg _; exact Option.noConfusion hg
  | cons c cs ih =>
    intro g hg hne
    by_cases hp : ciLitAt assessLit (c :: cs)
    · rw [specAfterMarker] at hg
      simp only [hp, if_true, Option.some.injEq] at hg
      subst hg
      rw [assessmentScan]
      cases hrest : (c :: cs).drop 11 with
      | nil => exact absurd hrest hne
      | cons r rs =>
        have htry : tryAssessAt (c :: cs) =
            match (r :: rs).dropWhile isJsWs with
            | [] =>
              match (r :: rs).getLast? with
              | some x => some [x]
              | none => none
            | nw => some nw := by
          rw [tryAssessAt]
          simp only [hp, if_true, hrest]
        cases hdw : (r :: rs).dropWhile isJsWs with
        | nil =>
          have hglast : (r :: rs).getLast? =
              some ((r :: rs).getLast (List.cons_ne_nil r rs)) :=
            List.getLast?_eq_getLast_of_ne_nil _
          refine ⟨[(r :: rs).getLast (List.cons_ne_nil r rs)], ?_, ?_⟩
          · rw [htry, hdw, hglast]
          · have hall := all_ws_of_dropWhile_eq_nil hdw
            have h1 : jsTrim [(r :: rs).getLast (List.cons_ne_nil r rs)] = [] := by
              apply jsTrim_of_all_ws
              intro x hx
              rw [List.mem_singleton] at hx
              subst hx
              exact hall _ (List.getLast_mem _)
            have h2 : jsTrim (r :: rs) = [] := jsTrim_of_all_ws hall
            rw [h1, h2]
        | cons w ws =>
          refine ⟨w :: ws, ?_, ?_⟩
          · rw [htry, hdw]
          · rw [← hdw, show (r :: rs).dropWhile isJsWs = trimL (r :: rs) from rfl,
              jsTrim_trimL]
    · rw [specAfterMarker, if_neg hp] at hg
      obtain ⟨g2, h1, h2⟩ := ih hg hne
      have htry : tryAssessAt (c :: cs) = none := by
        rw [tryAssessAt, if_neg hp]
      rw [assessmentScan, htry, h1]
      exact ⟨g2, rfl, h2⟩

end ScanLemmas

section DedupLemmas

/-- The deduplication worker yields a sublist of its input. -/
theorem dedupAux_sublist {α : Type} [DecidableEq α] :
    ∀ (l : List α) (seen : List α), List.Sublist (dedupAux seen l) l := by
  intro l
  induction l with
  | nil => intro seen; exact List.Sublist.refl _
  | cons x xs ih =>
    intro seen
    rw [dedupAux]
    by_cases hx : x ∈ seen
    · simp only [hx, if_true]
      exact (ih seen).cons x
    · simp only [hx, if_false]
      exact (ih (x :: seen)).cons₂ x

/-- Nothing already seen is emitted by the deduplication worker. -/
theorem dedupAux_not_mem {α : Type} [DecidableEq α] :
    ∀ (l : List α) (seen : List α) (a : α), a ∈ dedupAux seen l → a ∉ seen := by
  intro l
  induction l with
  | nil => intro seen a ha; exact absurd ha (List.not_mem_nil a)
  | cons x xs ih =>
    intro seen a ha
    rw [dedupAux] at ha
    by_cases hx : x ∈ seen
    · simp only [hx, if_true] at ha
      exact ih seen a ha
    · simp only [hx, if_false] at ha
      rcases List.mem_cons.mp ha with rfl | ha2
      · exact hx
      · intro hin
        exact ih (x :: seen) a ha2 (List.mem_cons_of_mem x hin)

/-- The deduplication worker emits no duplicates. -/
theorem dedupAux_nodup {α : Type} [DecidableEq α] :
    ∀ (l : List α) (seen : List α), (dedupAux seen l).Nodup := by
  intro l
  induction l with
  | nil => intro seen; exact List.nodup_nil
  | cons x xs ih =>
    intro seen
    rw [dedupAux]
    by_cases hx : x ∈ seen
    · simp only [hx, if_true]
      exact ih seen
    · simp only [hx, if_false]
      refine List.Nodup.cons ?_ (ih (x :: seen))
      intro hmem
      exact dedupAux_not_mem xs (x :: seen) x hmem (List.mem_cons_self x seen)

/-- Membership in the output of the deduplication worker: exactly the
input elements not already seen. -/
theorem mem_dedupAux {α : Type} [DecidableEq α] :
    ∀ (l : List α) (seen : List α) (a : α),
      a ∈ dedupAux seen l ↔ (a ∈ l ∧ a ∉ seen) := by
  intro l
  induction l with
  | nil => intro seen a; simp [dedupAux]
  | cons x xs ih =>
    intro seen a
    rw [dedupAux]
    by_cases hx : x ∈ seen
    · simp only [hx, if_true]
      rw [ih, List.mem_cons]
      constructor
      · rintro ⟨h1, h2⟩
        exact ⟨Or.inr h1, h2⟩
      · rintro ⟨h1 | h1, h2⟩
        · exact absurd (h1 ▸ hx) h2
        · exact ⟨h1, h2⟩
    · simp only [hx, if_false]
      rw [List.mem_cons, ih, List.mem_cons, List.mem_cons]
      constructor
      · rintro (rfl | ⟨h1, h2⟩)
        · exact ⟨Or.inl rfl, hx⟩
        · exact ⟨Or.inr h1, fun hs => h2 (Or.inr hs)⟩
      · rintro ⟨rfl | h1, h2⟩
        · exact Or.inl rfl
        · by_cases hax : a = x
          · exact Or.inl hax
          · exact Or.inr ⟨h1, fun hs => (hs.elim hax h2 : False)⟩

/-- Composing the not-seen filter with the not-equal filter of the
first-seen recursion gives the not-seen filter for the grown set. -/
theorem filter_filter_not_mem {α : Type} [DecidableEq α] (x : α) (seen : List α) :
    ∀ xs : List α,
      (xs.filter (fun y => decide (y ∉ seen))).filter (fun y => y ≠ x) =
        xs.filter (fun y => decide (y ∉ x :: seen)) := by
  intro xs
  induction xs with
  | nil => rfl
  | cons a as ih =>
    by_cases h2 : a = x
    · subst h2
      by_cases h1 : a ∈ seen <;>
        simp [List.filter_cons, h1, ih, List.mem_cons]
    · by_cases h1 : a ∈ seen <;>
        simp [List.filter_cons, h1, h2, ih, List.mem_cons]

/-- The Set-based deduplication of the source computes the claim-worded
first-seen deduplication of the not-yet-seen input elements. -/
theorem dedupAux_eq_specFirstSeenA {α : Type} [DecidableEq α] :
    ∀ (l : List α) (seen : List α) (fuel : Nat), l.length ≤ fuel →
      dedupAux seen l = specFirstSeenA fuel (l.filter (fun y => decide (y ∉ seen))) := by
  intro l
  induction l with
  | nil =>
    intro seen fuel _
    cases fuel <;> rfl
  | cons x xs ih =>
    intro seen fuel hf
    rw [dedupAux]
    by_cases hx : x ∈ seen
    · simp only [hx, if_true]
      rw [List.filter_cons_of_neg (by simpa using hx)]
      exact ih seen fuel (Nat.le_trans (Nat.le_succ _) hf)
    · simp only [hx, if_false]
      rw [List.filter_cons_of_pos (by simpa using hx)]
      cases fuel with
      | zero => exact absurd hf (by simp)
      | succ f =>
        rw [specFirstSeenA, filter_filter_not_mem]
        exact congrArg (x :: ·) (ih (x :: seen) f (Nat.le_of_succ_le_succ hf))

/-- The source `[...new Set(l)]` equals the claim-worded first-seen
deduplication. -/
theorem jsSetDedup_eq_specFirstSeen {α : Type} [DecidableEq α] (l : List α) :
    jsSetDedup l = specFirstSeen l := by
  rw [jsSetDedup, specFirstSeen, dedupAux_eq_specFirstSeenA l [] l.length (Nat.le_refl _)]
  congr 1
  apply List.filter_eq_self.mpr
  intro a _
  simp

/-- The first-seen deduplication loses no element: its members are
exactly the members of the input. -/
theorem mem_specFirstSeen {α : Type} [DecidableEq α] (l : List α) (a : α) :
    a ∈ specFirstSeen l ↔ a ∈ l := by
  rw [← jsSetDedup_eq_specFirstSeen, jsSetDedup, mem_dedupAux]
  simp

end DedupLemmas

section Claims

/-- C1: for every model reply, the parsed rating is an integer in
`[1, 5]`; it defaults to 3 when the rating regex finds no match
(no case-insensitive `RATING:` marker followed, after whitespace, by a
digit) and otherwise is the matched digit clamped by min/max; the
Gemini parser behaves identically. -/
theorem claim1_rating_bounds (t : String) :
    (1 ≤ (parseAIResponse t).rating ∧ (parseAIResponse t).rating ≤ 5) ∧
    (ratingScan t.data = none → (parseAIResponse t).rating = 3) ∧
    (∀ d, ratingScan t.data = some d →
      (parseAIResponse t).rating = min 5 (max 1 d)) ∧
    (parseGeminiResponse t).rating = (parseAIResponse t).rating := by
  cases h : ratingScan t.data with
  | none =>
    refine ⟨?_, fun _ => ?_, fun d hd => ?_, rfl⟩
    · constructor <;> (simp only [parseAIResponse, h]; omega)
    · simp only [parseAIResponse, h]
      decide
    · exact Option.noConfusion hd
  | some d0 =>
    refine ⟨?_, fun hn => ?_, fun d hd => ?_, rfl⟩
    · constructor <;> (simp only [parseAIResponse, h]; omega)
    · exact Option.noConfusion hn
    · injection hd with hd2
      subst hd2
      simp only [parseAIResponse, h]

/-- C1 witness: a reply with rating digit 0 clamps to 1, and a reply
with no marker defaults to 3. -/
theorem claim1_witness :
    (parseAIResponse "RATING: 0").rating = 1 ∧
    (parseAIResponse "no marker here").rating = 3 := by
  constructor
  · have h := (claim1_rating_bounds "RATING: 0").2.2.1 0 (by decide)
    simpa using h
  · exact (claim1_rating_bounds "no marker here").2.1 (by decide)

/-- C3 counterexample: on a reply with two rating substrings and no
assessment marker, the parser strips only the first one, while the
claim predicts that every occurrence is stripped. -/
theorem claim3_counterexample :
    ciContains assessLit "rating: 1 and RATING: 2".data = false ∧
    (parseAIResponse "rating: 1 and RATING: 2").assessment = "and RATING: 2" ∧
    String.mk (cleanupAssess (jsTrim
      (specStripAllRating "rating: 1 and RATING: 2".data))) = "and" ∧
    ("and RATING: 2" : String) ≠ "and" :=
  ⟨by decide, by decide, by decide, by decide⟩

/-- C3 amended: when the assessment regex does not match, the
assessment is the input with only the leftmost `RATING: <digit>` match
removed (the replace has no global flag), then trimmed and with one
leading dash or colon stripped; the two sub-cases characterise the
leftmost match positionally. -/
theorem claim3_amended (t : String) (h : assessmentScan t.data = none) :
    ((∀ i, ratingMatchLenAt (t.data.drop i) = none) →
      (parseAIResponse t).assessment = String.mk (cleanupAssess (jsTrim t.data))) ∧
    (∀ i n, (∀ j, j < i → ratingMatchLenAt (t.data.drop j) = none) →
      ratingMatchLenAt (t.data.drop i) = some n →
      (parseAIResponse t).assessment =
        String.mk (cleanupAssess (jsTrim (t.data.take i ++ t.data.drop (i + n))))) ∧
    (parseGeminiResponse t).assessment = (parseAIResponse t).assessment := by
  refine ⟨fun hno => ?_, fun i n hlt hi => ?_, rfl⟩
  · simp only [parseAIResponse, h, stripRatingOnce_of_no_match hno]
  · simp only [parseAIResponse, h, stripRatingOnce_of_first hlt hi]

/-- C3 amended witness: the leftmost rating match of `x RATING: 4`
starts at index 2 with length 9 and is removed. -/
theorem claim3_witness : (parseAIResponse "x RATING: 4").assessment = "x" := by
  have h := (claim3_amended "x RATING: 4" (by decide)).2.1 2 9 (by decide) (by decide)
  exact h.trans (by decide)

/-- C4 counterexample: `ASSESSMENT:` with nothing after it contains the
marker, but the regex needs at least one following character, so the
parser falls back to the whole text instead of the empty after-marker
suffix the claim predicts. -/
theorem claim4_counterexample :
    ciContains assessLit "ASSESSMENT:".data = true ∧
    specAfterMarker "ASSESSMENT:".data = some [] ∧
    (parseAIResponse "ASSESSMENT:").assessment = "ASSESSMENT:" ∧
    ("ASSESSMENT:" : String) ≠ String.mk (cleanupAssess (jsTrim [])) :=
  ⟨by decide, by decide, by decide, by decide⟩

/-- C4 amended: for every reply in which at least one character follows
the first case-insensitive `ASSESSMENT:` marker, the assessment is the
text after that marker, trimmed, with at most one leading dash or colon
stripped; the Gemini parser behaves identically. -/
theorem claim4_amended (t : String) (g : List Char)
    (hg : specAfterMarker t.data = some g) (hne : g ≠ []) :
    (parseAIResponse t).assessment = String.mk (cleanupAssess (jsTrim g)) ∧
    (parseGeminiResponse t).assessment = (parseAIResponse t).assessment := by
  refine ⟨?_, rfl⟩
  obtain ⟨g2, h1, h2⟩ := assessmentScan_of_specAfter hg hne
  simp only [parseAIResponse, h1, h2]

/-- C4 amended witness: one leading dash is stripped from the text
after the marker. -/
theorem claim4_witness : (parseAIResponse "ASSESSMENT: - good").assessment = "good" := by
  have h := (claim4_amended "ASSESSMENT: - good" " - good".data (by decide) (by decide)).1
  exact h.trans (by decide)

/-- C5 counterexample: a reply that is exactly a rating line parses to
an empty assessment, refuting the non-emptiness half of the claim. -/
theorem claim5_counterexample : (parseAIResponse "RATING: 3").assessment = "" := by
  decide

/-- C5 amended: the assessment is always trimmed (stripping leading and
trailing whitespace leaves it unchanged), though it may be empty; the
Gemini parser agrees. -/
theorem claim5_amended (t : String) :
    jsTrim (parseAIResponse t).assessment.data = (parseAIResponse t).assessment.data ∧
    (parseGeminiResponse t).assessment = (parseAIResponse t).assessment := by
  refine ⟨?_, rfl⟩
  cases h : assessmentScan t.data with
  | some g =>
    have he : (parseAIResponse t).assessment = String.mk (cleanupAssess (jsTrim g)) := by
      simp only [parseAIResponse, h]
    rw [he]
    exact jsTrim_cleanupAssess (jsTrim_jsTrim g)
  | none =>
    have he : (parseAIResponse t).assessment =
        String.mk (cleanupAssess (jsTrim (stripRatingOnce t.data))) := by
      simp only [parseAIResponse, h]
    rw [he]
    exact jsTrim_cleanupAssess (jsTrim_jsTrim (stripRatingOnce t.data))

/-- A page whose structured-data block carries a numeric
`itemCondition` while an `og:title` is present. -/
def htmlBadCondition : String :=
  "<meta property=\"og:title\" content=\"Coat\"><script type=\"application/ld+json\">\x7b\"itemCondition\": 5\x7d</script>"

/-- A page carrying only an `og:title` meta tag. -/
def htmlTitleOnly : String := "<meta property=\"og:title\" content=\"Wool Coat\">"

/-- C2 counterexample: on a page whose title is present but whose
structured data has a numeric `itemCondition`, `fetchVintedListing`
throws a `TypeError` instead of returning the `ListingData` the claim
promises whenever title or price is present. -/
theorem claim2_counterexample :
    truthy (extractTitle htmlBadCondition.data (jsonLdOf htmlBadCondition)) = true ∧
    fetchVintedListing ⟨true, htmlBadCondition⟩ "u" = Except.error JsError.typeError :=
  ⟨by decide, rfl⟩

/-- C2 amended: provided the condition extractor does not throw (the
structured-data `itemCondition` is absent, falsy, or a string), the
fetch of a successful response throws the extraction error exactly when
both the extracted title and the extracted price are falsy, and returns
the extracted `ListingData` whenever at least one of them is present. -/
theorem claim2_amended (resp : HttpResp) (url : String) (cond : Option String)
    (hok : resp.ok = true)
    (hcond : extractCondition resp.body.data (jsonLdOf resp.body) = Except.ok cond) :
    (fetchVintedListing resp url = Except.error (JsError.error
        "Could not extract listing data. The listing may be unavailable.") ↔
      (truthy (extractTitle resp.body.data (jsonLdOf resp.body)) = false ∧
       priceTruthy (extractPrice resp.body.data (jsonLdOf resp.body)) = false)) ∧
    ((truthy (extractTitle resp.body.data (jsonLdOf resp.body)) = true ∨
      priceTruthy (extractPrice resp.body.data (jsonLdOf resp.body)) = true) →
      fetchVintedListing resp url = Except.ok
        { title := extractTitle resp.body.data (jsonLdOf resp.body)
          brand := extractBrand resp.body.data (jsonLdOf resp.body)
          price := extractPrice resp.body.data (jsonLdOf resp.body)
          description := extractDescription resp.body.data (jsonLdOf resp.body)
          condition := cond
          images := extractImages resp.body
          url := url }) := by
  have hbody : fetchVintedListing resp url =
      (if !(truthy (extractTitle resp.body.data (jsonLdOf resp.body))) &&
          !(priceTruthy (extractPrice resp.body.data (jsonLdOf resp.body))) then
        Except.error (JsError.error
          "Could not extract listing data. The listing may be unavailable.")
      else Except.ok
        { title := extractTitle resp.body.data (jsonLdOf resp.body)
          brand := extractBrand resp.body.data (jsonLdOf resp.body)
          price := extractPrice resp.body.data (jsonLdOf resp.body)
          description := extractDescription resp.body.data (jsonLdOf resp.body)
          condition := cond
          images := extractImages resp.body
          url := url }) := by
    rw [fetchVintedListing, hok]
    simp only [Bool.true_eq_false, if_false, hcond]
  rw [hbody]
  cases hT : truthy (extractTitle resp.body.data (jsonLdOf resp.body)) <;>
    cases hP : priceTruthy (extractPrice resp.body.data (jsonLdOf resp.body)) <;>
      simp

/-- C2 amended witness: a page with only an `og:title` passes the gate
and yields a record with every other field absent. -/
theorem claim2_witness :
    fetchVintedListing ⟨true, htmlTitleOnly⟩ "u" = Except.ok
      { title := some (JsonValue.str "Wool Coat"), brand := none, price := none,
        description := none, condition := none, images := [], url := "u" } := by
  have h := (claim2_amended ⟨true, htmlTitleOnly⟩ "u" none rfl rfl).2 (Or.inl (by decide))
  exact h.trans (by rfl)

/-- C6: with the Groq key unset, the handler still performs the listing
fetch first and only then throws the configuration error — the network
call precedes the missing-key failure, for every completion-call
environment. -/
theorem claim6_fetch_precedes_key_check (m : ModelResp) :
    handler "POST" (some "https://example.invalid/item") none ⟨true, htmlTitleOnly⟩ m =
      ([NetEvent.listingFetch],
        ⟨500, HandlerBody.failure "GROQ_API_KEY environment variable not set"⟩) := rfl

/-- C7: field extraction can throw: a well-formed structured-data block
with a numeric `itemCondition` makes `extractCondition` raise a
`TypeError` (the number has no `replace` method), while a malformed
block is swallowed and merely yields no hint. -/
theorem claim7_condition_extraction_throws :
    jsonParse "\x7b\"itemCondition\": 5\x7d" =
      some (JsonValue.obj [("itemCondition", JsonValue.num false 5 [] 0)]) ∧
    extractCondition htmlBadCondition.data (jsonLdOf htmlBadCondition) =
      Except.error JsError.typeError ∧
    jsonLdOf "<script type=\"application/ld+json\">oops</script>" = none :=
  ⟨rfl, rfl, rfl⟩

/-- C8 amended: a non-success listing response makes the handler answer
500 with the error text `Failed to fetch Vinted listing` (the source
message includes the word Vinted, unlike the claim). -/
theorem claim8_amended (u : String) (hu : u ≠ "") (key : Option String)
    (lresp : HttpResp) (hfail : lresp.ok = false) (m : ModelResp) :
    handler "POST" (some u) key lresp m =
      ([NetEvent.listingFetch],
        ⟨500, HandlerBody.failure "Failed to fetch Vinted listing"⟩) := by
  have hfetch : fetchVintedListing lresp u =
      Except.error (JsError.error "Failed to fetch Vinted listing") := by
    rw [fetchVintedListing, if_pos hfail]
  have hurl : strOptTruthy (some u) = true := by
    simp only [strOptTruthy]
    exact decide_eq_true hu
  rw [handler, if_neg (not_not_intro rfl), if_neg (by rw [hurl]; simp)]
  simp only [hfetch]
  rfl

/-- C8 amended witness. -/
theorem claim8_witness :
    handler "POST" (some "x") none ⟨false, ""⟩ ⟨true, 200, "", none⟩ =
      ([NetEvent.listingFetch],
        ⟨500, HandlerBody.failure "Failed to fetch Vinted listing"⟩) :=
  claim8_amended "x" (by decide) none ⟨false, ""⟩ rfl ⟨true, 200, "", none⟩

/-- C8 counterexample: the error field of the 500 response reads
`Failed to fetch Vinted listing`, not the `Failed to fetch listing` of
the claim. -/
theorem claim8_counterexample :
    (handler "POST" (some "x") none ⟨false, ""⟩ ⟨true, 200, "", none⟩).2.body =
      HandlerBody.failure "Failed to fetch Vinted listing" ∧
    ("Failed to fetch Vinted listing" : String) ≠ "Failed to fetch listing" :=
  ⟨rfl, by decide⟩

/-- C9: the extracted image list is exactly the claim-worded value —
the match list of the CDN pattern deduplicated keeping each first
occurrence, truncated to the first five — and consequently it has at
most five entries, no duplicates, is an order-preserving selection
from the match list that loses no distinct match before the cap, and
is empty when the pattern never matches. -/
theorem claim9_extractImages (html : String) :
    extractImages html =
      (specFirstSeen ((imageMatches html.data).map (fun l => String.mk l))).take 5 ∧
    (∀ a, a ∈ specFirstSeen ((imageMatches html.data).map (fun l => String.mk l)) ↔
      a ∈ (imageMatches html.data).map (fun l => String.mk l)) ∧
    (extractImages html).length ≤ 5 ∧
    (extractImages html).Nodup ∧
    List.Sublist (extractImages html)
      ((imageMatches html.data).map (fun l => String.mk l)) ∧
    (imageMatches html.data = [] → extractImages html = []) := by
  cases hms : (imageMatches html.data).map (fun l => String.mk l) with
  | nil =>
    refine ⟨?_, fun a => mem_specFirstSeen _ a, ?_, ?_, ?_, fun _ => ?_⟩ <;>
      simp [extractImages, hms, specFirstSeen, specFirstSeenA]
  | cons a as =>
    have hval : extractImages html = (jsSetDedup (a :: as)).take 5 := by
      simp only [extractImages, hms]
    refine ⟨?_, fun a => mem_specFirstSeen _ a, ?_, ?_, ?_, fun h => ?_⟩
    · rw [hval, jsSetDedup_eq_specFirstSeen]
    · rw [hval, List.length_take]
      exact min_le_left _ _
    · rw [hval]
      exact List.Nodup.sublist (List.take_sublist _ _) (dedupAux_nodup _ _)
    · rw [hval]
      exact (List.take_sublist _ _).trans (dedupAux_sublist _ _)
    · rw [h] at hms
      exact List.noConfusion hms

/-- A page that repeats one CDN image URL around a distinct second
one. -/
def htmlDupImages : String :=
  "https://images1.vinted.net/t/a x https://images1.vinted.net/t/b https://images1.vinted.net/t/a"

/-- C9 witness: the duplicated URL is kept at its first position only,
and a page with no matches yields the empty list. -/
theorem claim9_witness :
    extractImages htmlDupImages =
      (specFirstSeen ((imageMatches htmlDupImages.data).map (fun l => String.mk l))).take 5 ∧
    extractImages htmlDupImages =
      ["https://images1.vinted.net/t/a", "https://images1.vinted.net/t/b"] ∧
    extractImages "no images here" = [] :=
  ⟨(claim9_extractImages htmlDupImages).1, by decide,
   (claim9_extractImages "no images here").2.2.2.2.2 (by decide)⟩

/-- Digit character of a decimal digit. -/
def digitCharOf (a : Fin 10) : Char := Char.ofNat (48 + a.val)

/-- Reply text consisting of the rating marker and two digits. -/
def twoDigitRatingReply (a b : Fin 10) : String :=
  "RATING: " ++ String.mk [digitCharOf a, digitCharOf b]

/-- C10: with two digits after the marker, only the first digit
determines the rating: the parser captures a single digit, so
`RATING: 42` parses to 4 (in range, unclamped) and not to the clamp of
42. -/
theorem claim10_first_digit_only :
    (∀ a b : Fin 10,
      (parseAIResponse (twoDigitRatingReply a b)).rating = min 5 (max 1 a.val) ∧
      (parseGeminiResponse (twoDigitRatingReply a b)).rating = min 5 (max 1 a.val)) ∧
    (parseAIResponse "RATING: 42").rating = 4 ∧
    min 5 (max 1 42) = 5 := by
  refine ⟨by decide, by decide, by decide⟩

end Claims

end Vinted
